import Mathlib

/-!
Verification development for the ai-sprint-planner-chatbox prediction engine
(model.js) and chat intent resolver (server.js).

Text is modelled as `List Char`. Machine numbers are modelled as `ℚ`
(the JavaScript arithmetic appearing here — keyword weights, clamps,
`Math.round`, `toFixed` — stays well inside the range where IEEE doubles
and exact rationals agree on every comparison made by the program).
The Naive-Bayes classifier of the `natural` library is an external trained
model; it is abstracted as a parameter `classify` returning a ranked list of
`(label, value)` classifications, exactly the shape `getClassifications`
returns, so theorems quantify over every possible classifier ranking.
-/

namespace SP

abbrev Chars := List Char

def str (s : String) : Chars := s.data

/-- ASCII lowercasing, as `String.prototype.toLowerCase` acts on the
ASCII inputs relevant here (applied characterwise). -/
def asciiLower (c : Char) : Char :=
  if 'A' ≤ c ∧ c ≤ 'Z' then Char.ofNat (c.toNat + 32) else c

def lowerL (l : Chars) : Chars := l.map asciiLower

/-- Character classes of the `natural` WordPunctTokenizer pattern
`([A-Za-zÀ-ÿ-]+|[0-9._]+|.)`: letter-or-hyphen runs, digit/dot/underscore
runs, and single other characters. -/
inductive CharClass
  | word
  | num
  | other
deriving DecidableEq

def cls (c : Char) : CharClass :=
  if ('a' ≤ c ∧ c ≤ 'z') ∨ ('A' ≤ c ∧ c ≤ 'Z') ∨ c = '-' ∨
      (Char.ofNat 192 ≤ c ∧ c ≤ Char.ofNat 255) then .word
  else if ('0' ≤ c ∧ c ≤ '9') ∨ c = '.' ∨ c = '_' then .num
  else .other

/-- Fuel-based worker for `tokens`; the fuel only needs to cover the input
length, making the recursion structural (kernel-reducible). -/
def tokensF : ℕ → Chars → List Chars
  | _, [] => []
  | 0, _ :: _ => []
  | n + 1, c :: cs =>
    if cls c = CharClass.other then
      [c] :: tokensF n cs
    else
      (c :: cs.takeWhile (fun d => decide (cls d = cls c))) ::
        tokensF n (cs.dropWhile (fun d => decide (cls d = cls c)))

/-- The WordPunctTokenizer of the `natural` library (modelled: external
dependency): maximal runs of letter/hyphen characters, maximal runs of
digit/dot/underscore characters, all remaining characters as singleton
tokens. Empty and single-space tokens are discarded downstream. -/
def tokens (l : Chars) : List Chars := tokensF l.length l

/-- The token filter regex `/[a-z0-9#]+/.test(t)`: the token contains at
least one lowercase letter, digit, or hash. -/
def isAlnumHash (c : Char) : Bool :=
  decide (('a' ≤ c ∧ c ≤ 'z') ∨ ('0' ≤ c ∧ c ≤ '9') ∨ c = '#')

def stopwords : List Chars :=
  [str "the", str "a", str "an", str "and", str "or", str "but", str "to",
   str "of", str "in", str "on", str "for", str "with", str "by", str "at",
   str "is", str "are", str "be", str "this", str "that", str "it", str "as",
   str "from", str "into", str "via", str "over", str "under", str "we",
   str "i", str "you"]

/-- `clean` from model.js, before joining: lowercase, tokenize, keep tokens
matching `/[a-z0-9#]+/`, drop stop-words. -/
def cleanTokens (text : Chars) : List Chars :=
  ((tokens (lowerL text)).filter (fun t => t.any isAlnumHash)).filter
    (fun t => decide (t ∉ stopwords))

/-- `clean` from model.js: the surviving tokens joined with single spaces. -/
def clean (text : Chars) : Chars := List.intercalate (str " ") (cleanTokens text)

/-- JavaScript `Math.round`: round half toward positive infinity. -/
def jsRound (q : ℚ) : ℤ := ⌊q + 1/2⌋

def tinyKw : List Chars :=
  [str "typo", str "copy", str "text", str "docs", str "readme", str "color",
   str "padding", str "icon"]

def smallKw : List Chars :=
  [str "validation", str "minor", str "ui", str "tooltip", str "css",
   str "logging", str "small", str "refactor"]

def mediumKw : List Chars :=
  [str "api", str "schema", str "cache", str "queue", str "oauth",
   str "retry", str "pagination", str "migration", str "feature"]

def largeKw : List Chars :=
  [str "payment", str "encryption", str "security", str "outage",
   str "deadlock", str "data loss", str "race condition", str "recovery",
   str "multi-tenant", str "compliance"]

/-- The `addIf` closure of `scoreComplexity`: for each keyword of the list
that occurs as a substring of `t`, add the weight `w` to the score. -/
def addIf (t : Chars) (list : List Chars) (w : ℚ) (score : ℚ) : ℚ :=
  list.foldl (fun sc k => if decide (k <:+: t) then sc + w else sc) score

def scoreComplexity (text : Chars) : ℚ :=
  let t := clean text
  let len : ℕ := max 1 (t.splitOn ' ').length
  let base : ℚ := min 1 ((len : ℚ) / 120)
  let s1 := addIf t tinyKw (-(2/10)) base
  let s2 := addIf t smallKw (5/100) s1
  let s3 := addIf t mediumKw (15/100) s2
  let s4 := addIf t largeKw (35/100) s3
  max 0 (min (3/2) s4)

def toFib (score : ℚ) : ℕ :=
  if score ≤ 15/100 then 1
  else if score ≤ 3/10 then 2
  else if score ≤ 5/10 then 3
  else if score ≤ 8/10 then 5
  else if score ≤ 11/10 then 8
  else if score ≤ 15/10 then 13
  else 13

/-- The base-hours table `{1:4, 2:6, 3:8, 5:16, 8:32, 13:56}` with the
source's `|| 8` default. -/
def baseHours (points : ℕ) : ℚ :=
  if points = 1 then 4
  else if points = 2 then 6
  else if points = 3 then 8
  else if points = 5 then 16
  else if points = 8 then 32
  else if points = 13 then 56
  else 8

def hasAny (kws : List Chars) (t : Chars) : Bool :=
  kws.any (fun k => decide (k <:+: t))

def uncertaintyKw : List Chars :=
  [str "spike", str "investigate", str "unknown", str "legacy",
   str "undocumented"]

def simplicityKw : List Chars :=
  [str "well-defined", str "simple", str "trivial", str "straightforward"]

def coordinationKw : List Chars :=
  [str "cross-team", str "multiple services", str "coordination",
   str "dependency"]

def estimateHoursFn (points : ℕ) (text : Chars) : ℤ :=
  let t := clean text
  let h1 : ℚ := baseHours points
  let h2 := if hasAny uncertaintyKw t then h1 * (13/10) else h1
  let h3 := if hasAny simplicityKw t then h2 * (4/5) else h2
  let h4 := if hasAny coordinationKw t then h3 * (5/4) else h3
  jsRound h4

def emergencyKw : List Chars :=
  [str "sev1", str "p0", str "outage", str "down", str "cannot login",
   str "payment failed", str "data loss", str "security", str "breach"]

/-- The emergency override regex
`/sev1|p0|outage|down|cannot login|payment failed|data loss|security|breach/`
tested against the raw lowercased text. -/
def matchesEmergency (raw : Chars) : Bool := hasAny emergencyKw raw

/-- One entry of the list `getClassifications` returns: a label with its
score, sorted highest first by the library. -/
structure Classification where
  label : Chars
  value : ℚ
deriving DecidableEq

structure PredictionResult where
  priority : Chars
  storyPoints : ℕ
  estimateHours : ℤ
  confidence : ℚ
  rationale : Chars
deriving DecidableEq

/-- `Number(x.toFixed(2))` for the nonnegative confidences produced here. -/
def toFixed2 (q : ℚ) : ℚ := (jsRound (q * 100) : ℚ) / 100

def cueOutage : List Chars := [str "outage", str "down", str "unreachable"]

def cueSecurity : List Chars := [str "security", str "breach", str "encryption"]

def cueRevenue : List Chars := [str "payment", str "checkout"]

def cueCosmetic : List Chars := [str "typo", str "copy", str "color", str "css"]

def cueIntegration : List Chars :=
  [str "migration", str "schema", str "api", str "integration"]

def buildRationale (priority : Chars) (sp : ℕ) (hours : ℤ) (raw : Chars) :
    Chars :=
  let cues : List Chars :=
    (if hasAny cueOutage raw then [str "service outage"] else []) ++
    (if hasAny cueSecurity raw then [str "security risk"] else []) ++
    (if hasAny cueRevenue raw then [str "revenue impact"] else []) ++
    (if hasAny cueCosmetic raw then [str "cosmetic"] else []) ++
    (if hasAny cueIntegration raw then [str "system integration"] else [])
  let joined := List.intercalate (str ", ") cues
  str "Priority " ++ priority ++ str " based on cues: " ++
    (if joined = [] then str "general classification" else joined) ++
    str ". Story Points ~" ++ str (Nat.repr sp) ++ str ", Est ~" ++
    str (Int.repr hours) ++ str "h."

/-- The fixed conservative-default result returned when the cleaned text is
empty. -/
def lowDefault : PredictionResult :=
  ⟨str "Low", 1, 4, 4/10,
   str "No text provided. Falling back to conservative defaults."⟩

/-- Priority and confidence derived from the classification list: defaults
`Medium`/`0.6` when the list is empty (this also covers the source's
swallowed-exception path), otherwise the top label with
`max(0.5, min(0.99, top/(top+second)))`, where a missing or zero ranked
second value is replaced by `1e-9` (the `|| 1e-9` fallback). -/
def classifierPC (cl : List Classification) : Chars × ℚ :=
  match cl with
  | [] => (str "Medium", 6/10)
  | c0 :: rest =>
    let top := c0.value
    let second : ℚ :=
      match rest with
      | [] => 1/1000000000
      | c1 :: _ => if c1.value = 0 then 1/1000000000 else c1.value
    (c0.label, max (1/2) (min (99/100) (top / (top + second))))

/-- `predictRecord` from model.js, parameterized by the classifier. -/
def predictRecord (classify : Chars → List Classification) (text : Chars) :
    PredictionResult :=
  let content := clean text
  if content = [] then lowDefault
  else
    let pc := classifierPC (classify content)
    let raw := lowerL text
    let em := matchesEmergency raw
    let priority := if em then str "Critical" else pc.1
    let confidence := if em then max pc.2 (85/100) else pc.2
    let cScore := scoreComplexity text
    let sp := toFib cScore
    let hours := estimateHoursFn sp text
    ⟨priority, sp, hours, toFixed2 confidence,
     buildRationale priority sp hours raw⟩

/-! ### server.js: per-record text construction and the chat intent resolver -/

/-- JavaScript `\s` / `String.prototype.trim` whitespace, restricted to the
ASCII range relevant here. -/
def isJsSpace (c : Char) : Bool :=
  decide (c = ' ' ∨ c = Char.ofNat 9 ∨ c = Char.ofNat 10 ∨ c = Char.ofNat 13 ∨
    c = Char.ofNat 11 ∨ c = Char.ofNat 12)

def jsTrim (l : Chars) : Chars :=
  ((l.dropWhile isJsSpace).reverse.dropWhile isJsSpace).reverse

/-- The text the /api/predict handler feeds to `predictRecord`:
`` `${summary}\n${description}`.trim() ``. -/
def recordText (summary description : Chars) : Chars :=
  jsTrim (summary ++ str "\n" ++ description)

/-- One row of the `lastDataset` snapshot built by /api/predict. -/
structure ChatRow where
  Row : ℕ
  Summary : Chars
  Description : Chars
  Priority : Chars
  StoryPoints : ℚ
  EstimateHours : ℚ
  Confidence : ℚ
  Rationale : Chars
deriving DecidableEq

/-- Rendering of a rational in chat replies. JavaScript's number-to-string
conversion is approximated; no verified claim depends on this rendering. -/
def ratRepr (q : ℚ) : Chars :=
  if q.den = 1 then str (Int.repr q.num)
  else str (Int.repr q.num) ++ str "/" ++ str (Nat.repr q.den)

/-- `x.toFixed(d)` for the nonnegative averages rendered in chat replies. -/
def ratToFixed (d : ℕ) (q : ℚ) : Chars :=
  let m : ℤ := ⌊q * ((10 : ℚ) ^ d) + 1/2⌋
  let ip : ℤ := m / ((10 : ℤ) ^ d)
  let fp : ℕ := (m % ((10 : ℤ) ^ d)).toNat
  let fstr := Nat.repr fp
  let pad : Chars := List.replicate (d - fstr.length) '0'
  if d = 0 then str (Int.repr ip)
  else str (Int.repr ip) ++ str "." ++ pad ++ str fstr

def explainPrediction (row : ChatRow) : Chars :=
  str "Row " ++ str (Nat.repr row.Row) ++ str ": Priority " ++ row.Priority ++
    str " (confidence " ++ ratRepr row.Confidence ++ str "). " ++ row.Rationale

def priorityRank (p : Chars) : ℤ :=
  if p = str "Critical" then 4
  else if p = str "High" then 3
  else if p = str "Medium" then 2
  else if p = str "Low" then 1
  else 0

/-- Keys of the `priorityCounts` object in first-appearance order (JavaScript
object keys preserve insertion order). -/
def priorityKeys (ds : List ChatRow) : List Chars :=
  (ds.map (·.Priority)).foldl
    (fun acc p => if p ∈ acc then acc else acc ++ [p]) []

def countPriority (ds : List ChatRow) (p : Chars) : ℕ :=
  (ds.filter (fun r => decide (r.Priority = p))).length

/-- The `avg` helper of `summarizeDataset`: sum divided by
`Math.max(1, length)`. -/
def avgQ (l : List ℚ) : ℚ := l.sum / (max 1 l.length : ℕ)

def avgStoryPoints (ds : List ChatRow) : ℚ := avgQ (ds.map (·.StoryPoints))

def avgHours (ds : List ChatRow) : ℚ := avgQ (ds.map (·.EstimateHours))

def distributionReply (ds : List ChatRow) : Chars :=
  let pcs := List.intercalate (str ", ")
    ((priorityKeys ds).map
      (fun k => k ++ str ": " ++ str (Nat.repr (countPriority ds k))))
  str "Priority counts → " ++ pcs ++ str "\n" ++
    str "Average story points: " ++ ratToFixed 2 (avgStoryPoints ds) ++
    str "\n" ++ str "Average hours: " ++ ratToFixed 1 (avgHours ds)

def helpReply : Chars :=
  str "You can ask: \n• \"Why 5\" to explain predictions for row 5\n• \"Priority distribution\" to see counts\n• \"Average\" for averages\n• \"Top risky\" to see highest priority rows"

/-- The `/api/chat` sort comparator: priority rank descending, tie-broken by
confidence descending; `mergeSort` keeps the original order on full ties,
matching the stable JavaScript `Array.prototype.sort`. -/
def riskLe (a b : ChatRow) : Bool :=
  decide (priorityRank b.Priority < priorityRank a.Priority ∨
    (priorityRank b.Priority = priorityRank a.Priority ∧
      b.Confidence ≤ a.Confidence))

def topRiskyLine (r : ChatRow) : Chars :=
  str "Row " ++ str (Nat.repr r.Row) ++ str ": " ++ r.Priority ++
    str " (SP " ++ ratRepr r.StoryPoints ++ str ", ~" ++
    ratRepr r.EstimateHours ++ str "h)"

def topRiskyReply (ds : List ChatRow) : Chars :=
  List.intercalate (str "\n")
    (((ds.mergeSort riskLe).take 5).map topRiskyLine)

def averagesReply (ds : List ChatRow) : Chars :=
  str "Average story points: " ++ ratToFixed 2 (avgStoryPoints ds) ++
    str " | Average hours: " ++ ratToFixed 1 (avgHours ds)

def noDatasetReply : Chars :=
  str "No dataset loaded yet. Please upload a CSV first. The CSV must have Summary and/or Description columns."

def fallbackReply : Chars :=
  str "I can help with distribution, averages, and explaining rows. Try: \"Why 1\" or \"Priority distribution\"."

def distributionKw : List Chars :=
  [str "distribution", str "count", str "how many", str "breakdown",
   str "summary of priority"]

def helpKw : List Chars :=
  [str "help", str "what can you do", str "commands", str "options"]

def topRiskyKw : List Chars :=
  [str "top risky", str "highest priority", str "critical"]

def avgKw : List Chars := [str "average", str "avg"]

inductive ChatResult
  | error (m : Chars)
  | reply (m : Chars)
deriving DecidableEq

def isDigitC (c : Char) : Bool := decide ('0' ≤ c ∧ c ≤ '9')

def digitsVal (l : Chars) : ℕ :=
  l.foldl (fun acc c => 10 * acc + (c.toNat - 48)) 0

/-- After `\s*`, a nonempty digit run `(\d+)` parsed by `parseInt`. -/
def tryDigits (r : Chars) : Option ℕ :=
  let r1 := r.dropWhile isJsSpace
  let ds := r1.takeWhile isDigitC
  if ds = [] then none else some (digitsVal ds)

def tryKw (kw : Chars) (r : Chars) : Option ℕ :=
  if kw.isPrefixOf r then tryDigits (r.drop kw.length) else none

/-- Match `/why\s+(?:row|record|id)?\s*(\d+)/` anchored at the front of `l`:
the literal `why`, at least one whitespace, an optional `row`/`record`/`id`
(tried in the alternation's order, with fallthrough to no keyword when no
digits follow, as regex backtracking does), optional whitespace, digits. -/
def whyAt (l : Chars) : Option ℕ :=
  if (str "why").isPrefixOf l then
    let r1 := l.drop 3
    if r1.takeWhile isJsSpace = [] then none
    else
      let r2 := r1.dropWhile isJsSpace
      (tryKw (str "row") r2).orElse fun _ =>
        (tryKw (str "record") r2).orElse fun _ =>
          (tryKw (str "id") r2).orElse fun _ => tryDigits r2
  else none

/-- Leftmost match of the why-row pattern, as `String.prototype.match`. -/
def whyMatch : Chars → Option ℕ
  | [] => none
  | c :: cs =>
    match whyAt (c :: cs) with
    | some n => some n
    | none => whyMatch cs

/-- The intent chain after the explain-row intent: distribution, help,
top-risky, averages, then the fixed fallback reply (source order). -/
def afterWhy (msg : Chars) (ds : List ChatRow) : ChatResult :=
  if hasAny distributionKw msg then .reply (distributionReply ds)
  else if hasAny helpKw msg then .reply helpReply
  else if hasAny topRiskyKw msg then .reply (topRiskyReply ds)
  else if hasAny avgKw msg then .reply (averagesReply ds)
  else .reply fallbackReply

/-- The /api/chat handler as a function of the message and the dataset
snapshot: validation, lowercasing, the empty-dataset reply, then the intent
chain in source order. `parseInt(whyMatch[1]) - 1` is in range iff
`1 ≤ n ≤ ds.length`. -/
def resolveChat (message : Chars) (ds : List ChatRow) : ChatResult :=
  if (jsTrim message).length < 2 then .error (str "Message is required.")
  else
    let msg := lowerL message
    if ds.length = 0 then .reply noDatasetReply
    else
      match whyMatch msg with
      | some n =>
        if h : 1 ≤ n ∧ n ≤ ds.length then
          .reply (explainPrediction (ds.get ⟨n - 1, by omega⟩))
        else afterWhy msg ds
      | none => afterWhy msg ds

/-- True when none of the four intents after explain-row match the message. -/
def noOtherIntent (msg : Chars) : Bool :=
  !hasAny distributionKw msg && !hasAny helpKw msg &&
    !hasAny topRiskyKw msg && !hasAny avgKw msg

/-! ### Definitions following the spec's words, for refinement claims -/

/-- Number of keywords of the list occurring as substrings of `t`. -/
def countMatches (kws : List Chars) (t : Chars) : ℕ :=
  (kws.filter (fun k => decide (k <:+: t))).length

/-- The length-based base score `min(1, tokenCount/120)` of
`scoreComplexity`. -/
def baseLenScore (text : Chars) : ℚ :=
  min 1 (((max 1 ((clean text).splitOn ' ').length : ℕ) : ℚ) / 120)

/-- Complexity score as claim C4 words it: each keyword SET contributes its
weight at most once, no matter how many of its keywords match. -/
def specScoreAtMostOnce (text : Chars) : ℚ :=
  let t := clean text
  max 0 (min (3/2)
    (baseLenScore text +
      (if hasAny tinyKw t then -(2/10) else 0) +
      (if hasAny smallKw t then 5/100 else 0) +
      (if hasAny mediumKw t then 15/100 else 0) +
      (if hasAny largeKw t then 35/100 else 0)))

/-- Complexity score as the code computes it, in closed form: each keyword
contributes its set's weight once per matching keyword (not per occurrence),
summed, then clamped. -/
def specScorePerKeyword (text : Chars) : ℚ :=
  let t := clean text
  max 0 (min (3/2)
    (baseLenScore text +
      (-(2/10)) * countMatches tinyKw t +
      (5/100) * countMatches smallKw t +
      (15/100) * countMatches mediumKw t +
      (35/100) * countMatches largeKw t))

/-- A classifier stub ranking Low on top with a large margin, used to
exhibit behaviour independent of the emergency override. -/
def lowClassifier : Chars → List Classification :=
  fun _ => [⟨str "Low", 9⟩, ⟨str "Medium", 1⟩]

/-- A classifier stub ranking Critical on top. -/
def critClassifier : Chars → List Classification :=
  fun _ => [⟨str "Critical", 3⟩, ⟨str "High", 1⟩]

/-- The C6 scenario text. -/
def c6text : Chars := str "Payment gateway failing checkout blocked for all customers"

/-- Concrete dataset rows for the C7 scenario (3 rows). -/
def chatRowA : ChatRow := ⟨1, str "a", str "", str "Critical", 8, 32, 9/10, str "r"⟩

def chatRowB : ChatRow := ⟨2, str "b", str "", str "Low", 1, 4, 2/5, str "r"⟩

def chatRowC : ChatRow := ⟨3, str "c", str "", str "High", 3, 8, 7/10, str "r"⟩

/-! ## Helper lemmas -/

/-- An infix of an append is an infix of one part, or spans the boundary
with a nonempty suffix of the left part and a nonempty prefix of the right
part. -/
lemma infix_split (w l₁ l₂ : Chars) (h : w <:+: l₁ ++ l₂) :
    w <:+: l₁ ∨ w <:+: l₂ ∨
      ∃ w₁ w₂, w = w₁ ++ w₂ ∧ w₁ ≠ [] ∧ w₂ ≠ [] ∧ w₁ <:+ l₁ ∧ w₂ <+: l₂ := by
  obtain ⟨p, s, hps⟩ := h
  rw [List.append_assoc] at hps
  rcases List.append_eq_append_iff.mp hps with ⟨a', ha1, ha2⟩ | ⟨c', hc1, hc2⟩
  · rcases List.append_eq_append_iff.mp ha2 with ⟨b', hb1, hb2⟩ | ⟨w₂, hw1, hw2⟩
    · exact Or.inl ⟨p, b', by rw [ha1, hb1, List.append_assoc]⟩
    · rcases eq_or_ne a' [] with rfl | ha'
      · refine Or.inr (Or.inl ?_)
        simp only [List.nil_append] at hw1
        exact ⟨[], s, by rw [hw2, ← hw1, List.nil_append]⟩
      · rcases eq_or_ne w₂ [] with rfl | hw₂
        · rw [List.append_nil] at hw1
          exact Or.inl ⟨p, [], by rw [ha1, ← hw1, List.append_nil]⟩
        · exact Or.inr (Or.inr ⟨a', w₂, hw1, ha', hw₂,
            ⟨p, ha1.symm⟩, ⟨s, hw2.symm⟩⟩)
  · exact Or.inr (Or.inl ⟨c', s, by rw [hc2, List.append_assoc]⟩)

/-- A nonempty all-letter word occurring in a string occurs inside a single
token produced by the tokenizer (given enough fuel). -/
lemma exists_token_infixF {w : Chars} (hwcls : ∀ c ∈ w, cls c = CharClass.word)
    (hw : w ≠ []) :
    ∀ (n : ℕ) (L : Chars), L.length ≤ n → w <:+: L →
      ∃ t, t ∈ tokensF n L ∧ w <:+: t := by
  intro n
  induction n with
  | zero =>
    intro L hL hinf
    have hLnil : L = [] := List.eq_nil_of_length_eq_zero (Nat.le_zero.mp hL)
    subst hLnil
    exact absurd (List.sublist_nil.mp hinf.sublist) hw
  | succ n ih =>
    intro L hL hinf
    match L with
    | [] => exact absurd (List.sublist_nil.mp hinf.sublist) hw
    | c :: cs =>
      by_cases hc : cls c = CharClass.other
      · have hsplit := infix_split w [c] cs (by simpa using hinf)
        rcases hsplit with h1 | h2 | ⟨w₁, w₂, heq, h1ne, h2ne, hsuf, hpre⟩
        · exfalso
          obtain ⟨x, hx⟩ := List.exists_mem_of_ne_nil w hw
          have hx2 : x = c := by simpa using h1.subset hx
          subst hx2
          rw [hwcls x hx] at hc
          exact absurd hc (by decide)
        · obtain ⟨t, ht, hwt⟩ := ih cs (by simpa using hL) h2
          refine ⟨t, ?_, hwt⟩
          simp only [tokensF, if_pos hc]
          exact List.mem_cons_of_mem _ ht
        · exfalso
          obtain ⟨x, hx⟩ := List.exists_mem_of_ne_nil w₁ h1ne
          have hx2 : x = c := by simpa using hsuf.subset hx
          subst hx2
          have hxw : x ∈ w := heq ▸ List.mem_append_left _ hx
          rw [hwcls x hxw] at hc
          exact absurd hc (by decide)
      · have hLsplit : c :: cs =
            (c :: cs.takeWhile (fun d => decide (cls d = cls c))) ++
              cs.dropWhile (fun d => decide (cls d = cls c)) := by
          simp
        have htok : tokensF (n + 1) (c :: cs) =
            (c :: cs.takeWhile (fun d => decide (cls d = cls c))) ::
              tokensF n (cs.dropWhile (fun d => decide (cls d = cls c))) := by
          simp only [tokensF, if_neg hc]
        rcases infix_split w _ _ (hLsplit ▸ hinf)
          with h1 | h2 | ⟨w₁, w₂, heq, h1ne, h2ne, hsuf, hpre⟩
        · exact ⟨_, by rw [htok]; exact List.mem_cons_self _ _, h1⟩
        · have hlen : (cs.dropWhile (fun d => decide (cls d = cls c))).length ≤ n :=
            le_trans (List.dropWhile_suffix _).sublist.length_le (by simpa using hL)
          obtain ⟨t, ht, hwt⟩ := ih _ hlen h2
          exact ⟨t, by rw [htok]; exact List.mem_cons_of_mem _ ht, hwt⟩
        · exfalso
          obtain ⟨x, hx⟩ := List.exists_mem_of_ne_nil w₁ h1ne
          have hxw : x ∈ w := heq ▸ List.mem_append_left _ hx
          have hxword : cls x = CharClass.word := hwcls x hxw
          have hxt := hsuf.subset hx
          have hcword : cls c = CharClass.word := by
            rcases List.mem_cons.mp hxt with rfl | hxtw
            · exact hxword
            · have hp := List.mem_takeWhile_imp hxtw
              have hxc : cls x = cls c := of_decide_eq_true hp
              rw [← hxc]
              exact hxword
          obtain ⟨d, w₂', rfl⟩ : ∃ d w₂', w₂ = d :: w₂' := by
            match w₂, h2ne with
            | d :: w₂', _ => exact ⟨d, w₂', rfl⟩
          obtain ⟨t', ht'⟩ := hpre
          have hd? : (cs.dropWhile (fun d => decide (cls d = cls c))).head? =
              some d := by
            rw [← ht']
            rfl
          have hpd : decide (cls d = cls c) = false := by
            have hmatch := List.head?_dropWhile_not
              (fun d => decide (cls d = cls c)) cs
            rw [hd?] at hmatch
            exact hmatch
          have : cls d ≠ cls c := by
            intro hdc
            rw [decide_eq_true hdc] at hpd
            exact absurd hpd (by decide)
          have hdw : cls d = CharClass.word :=
            hwcls d (heq ▸ List.mem_append_right _ (List.mem_cons_self _ _))
          exact this (hdw.trans hcword.symm)

/-- A member of a token list is an infix of the joined string. -/
lemma infix_intercalate {t : Chars} (sep : Chars) :
    ∀ {L : List Chars}, t ∈ L → t <:+: List.intercalate sep L := by
  intro L
  induction L with
  | nil => intro h; cases h
  | cons a L ih =>
    intro h
    match L with
    | [] =>
      have ha : t = a := by simpa using h
      subst ha
      have hone : List.intercalate sep [t] = t := by simp [List.intercalate]
      rw [hone]
    | b :: L' =>
      have hstep : List.intercalate sep (a :: b :: L') =
          a ++ sep ++ List.intercalate sep (b :: L') := by
        simp [List.intercalate, List.append_assoc]
      rcases List.mem_cons.mp h with rfl | hmem
      · exact ⟨[], sep ++ List.intercalate sep (b :: L'),
          by rw [hstep]; simp [List.append_assoc]⟩
      · obtain ⟨pfx, sfx, hps⟩ := ih hmem
        exact ⟨a ++ sep ++ pfx, sfx,
          by rw [hstep, ← hps]; simp [List.append_assoc]⟩

/-- Core lemma: a nonempty letter/hyphen word containing an allowed character
and contained in no stop-word survives `clean` whenever it occurs in the
lowercased text. -/
lemma infix_clean (w : Chars) {text : Chars} (hw : w ≠ [])
    (hcls : ∀ c ∈ w, cls c = CharClass.word)
    (halnum : w.any isAlnumHash = true)
    (hstop : ∀ s ∈ stopwords, ¬ w <:+: s)
    (hinf : w <:+: lowerL text) :
    w <:+: clean text := by
  obtain ⟨t, ht, hwt⟩ := exists_token_infixF hcls hw (lowerL text).length
    (lowerL text) le_rfl hinf
  have ht1 : t.any isAlnumHash = true := by
    obtain ⟨c, hcw, hca⟩ := List.any_eq_true.mp halnum
    exact List.any_eq_true.mpr ⟨c, hwt.subset hcw, hca⟩
  have ht2 : t ∉ stopwords := fun hmem => hstop t hmem hwt
  have htc : t ∈ cleanTokens text := by
    refine List.mem_filter.mpr ⟨List.mem_filter.mpr ⟨ht, ht1⟩, ?_⟩
    exact decide_eq_true ht2
  exact hwt.trans (infix_intercalate (str " ") htc)

/-- The emptiness test `!content` is the emptiness of the token list. -/
lemma clean_ne_nil {w text : Chars} (hw : w ≠ [])
    (hcls : ∀ c ∈ w, cls c = CharClass.word)
    (halnum : w.any isAlnumHash = true)
    (hstop : ∀ s ∈ stopwords, ¬ w <:+: s)
    (hinf : w <:+: lowerL text) :
    clean text ≠ [] :=
  (infix_clean w hw hcls halnum hstop hinf).ne_nil hw

lemma clean_ne_of_subword (w k : Chars) {text : Chars} (hwk : w <:+: k)
    (hk : k <:+: lowerL text) (hw : w ≠ [])
    (hcls : ∀ c ∈ w, cls c = CharClass.word)
    (halnum : w.any isAlnumHash = true)
    (hstop : ∀ s ∈ stopwords, ¬ w <:+: s) :
    clean text ≠ [] :=
  clean_ne_nil hw hcls halnum hstop (hwk.trans hk)

/-- Any raw text matching the emergency regex normalizes to nonempty text:
each alternative contains a letter-run that no stop-word contains, so a token
containing it survives cleaning. -/
lemma clean_ne_of_emergency {text : Chars}
    (h : matchesEmergency (lowerL text) = true) : clean text ≠ [] := by
  simp only [matchesEmergency, hasAny, emergencyKw, List.any_eq_true,
    List.mem_cons, List.not_mem_nil, or_false, decide_eq_true_eq] at h
  obtain ⟨k, hkmem, hkinf⟩ := h
  rcases hkmem with rfl | rfl | rfl | rfl | rfl | rfl | rfl | rfl | rfl
  · exact clean_ne_of_subword (str "sev") _ (by decide) hkinf (by decide)
      (by decide) (by decide) (by decide)
  · exact clean_ne_of_subword (str "p") _ (by decide) hkinf (by decide)
      (by decide) (by decide) (by decide)
  · exact clean_ne_of_subword (str "outage") _ (by decide) hkinf (by decide)
      (by decide) (by decide) (by decide)
  · exact clean_ne_of_subword (str "down") _ (by decide) hkinf (by decide)
      (by decide) (by decide) (by decide)
  · exact clean_ne_of_subword (str "cannot") _ (by decide) hkinf (by decide)
      (by decide) (by decide) (by decide)
  · exact clean_ne_of_subword (str "payment") _ (by decide) hkinf (by decide)
      (by decide) (by decide) (by decide)
  · exact clean_ne_of_subword (str "data") _ (by decide) hkinf (by decide)
      (by decide) (by decide) (by decide)
  · exact clean_ne_of_subword (str "security") _ (by decide) hkinf (by decide)
      (by decide) (by decide) (by decide)
  · exact clean_ne_of_subword (str "breach") _ (by decide) hkinf (by decide)
      (by decide) (by decide) (by decide)

/-- The non-short-circuit branch of `predictRecord`, written out. -/
lemma predictRecord_main (classify : Chars → List Classification)
    (text : Chars) (hne : clean text ≠ []) :
    predictRecord classify text =
      ⟨if matchesEmergency (lowerL text) then str "Critical"
          else (classifierPC (classify (clean text))).1,
        toFib (scoreComplexity text),
        estimateHoursFn (toFib (scoreComplexity text)) text,
        toFixed2 (if matchesEmergency (lowerL text)
          then max (classifierPC (classify (clean text))).2 (85/100)
          else (classifierPC (classify (clean text))).2),
        buildRationale
          (if matchesEmergency (lowerL text) then str "Critical"
            else (classifierPC (classify (clean text))).1)
          (toFib (scoreComplexity text))
          (estimateHoursFn (toFib (scoreComplexity text)) text)
          (lowerL text)⟩ := by
  simp only [predictRecord, if_neg hne]

lemma toFixed2_lb (a : ℤ) {q : ℚ} (h : (a : ℚ)/100 ≤ q) :
    (a : ℚ)/100 ≤ toFixed2 q := by
  have ha : a ≤ ⌊q * 100 + 1/2⌋ := Int.le_floor.mpr (by linarith)
  unfold toFixed2 jsRound
  have h100 : (0 : ℚ) < 100 := by norm_num
  rw [div_le_div_iff_of_pos_right h100]
  exact_mod_cast ha

lemma toFixed2_ub (a : ℤ) {q : ℚ} (h : q ≤ (a : ℚ)/100) :
    toFixed2 q ≤ (a : ℚ)/100 := by
  have ha : ⌊q * 100 + 1/2⌋ < a + 1 := Int.floor_lt.mpr (by push_cast; linarith)
  have ha2 : ⌊q * 100 + 1/2⌋ ≤ a := by omega
  unfold toFixed2 jsRound
  have h100 : (0 : ℚ) < 100 := by norm_num
  rw [div_le_div_iff_of_pos_right h100]
  exact_mod_cast ha2

lemma classifierPC_lb (cl : List Classification) :
    (1/2 : ℚ) ≤ (classifierPC cl).2 := by
  match cl with
  | [] => norm_num [classifierPC]
  | c0 :: rest =>
    simp only [classifierPC]
    exact le_max_left _ _

lemma classifierPC_ub (cl : List Classification) :
    (classifierPC cl).2 ≤ 99/100 := by
  match cl with
  | [] => norm_num [classifierPC]
  | c0 :: rest =>
    simp only [classifierPC]
    exact max_le (by norm_num) (min_le_left _ _)

/-- Confidence before rounding, in the non-short-circuit branch. -/
lemma confidence_pre_bounds (cl : List Classification) (em : Bool) :
    (1/2 : ℚ) ≤ (if em then max (classifierPC cl).2 (85/100)
        else (classifierPC cl).2) ∧
      (if em then max (classifierPC cl).2 (85/100)
        else (classifierPC cl).2) ≤ 99/100 := by
  cases em with
  | false => exact ⟨classifierPC_lb cl, classifierPC_ub cl⟩
  | true =>
    refine ⟨le_trans (classifierPC_lb cl) (by simp [le_max_left]), ?_⟩
    simp only [if_true]
    exact max_le (classifierPC_ub cl) (by norm_num)

/-- Shared conclusion of the override claims: whenever the emergency regex
matches the lowercased raw text, the result is Critical with confidence at
least 0.85. -/
lemma predict_override (classify : Chars → List Classification) (text : Chars)
    (h : matchesEmergency (lowerL text) = true) :
    (predictRecord classify text).priority = str "Critical" ∧
      (85/100 : ℚ) ≤ (predictRecord classify text).confidence := by
  have hne := clean_ne_of_emergency h
  rw [predictRecord_main classify text hne]
  constructor
  · simp [h]
  · simp only [h, if_true]
    exact toFixed2_lb 85 (by
      have := le_max_right (classifierPC (classify (clean text))).2
        ((85 : ℚ)/100)
      linarith)

/-! ## Claims -/

/-- C1: for every input text whose raw (lowercased, non-normalized) form
matches the emergency-keyword pattern, `predictRecord` returns priority
Critical and confidence at least 0.85, regardless of the classifier's
ranking. -/
theorem claim_C1_emergency_override (classify : Chars → List Classification)
    (text : Chars) (h : matchesEmergency (lowerL text) = true) :
    (predictRecord classify text).priority = str "Critical" ∧
      (85/100 : ℚ) ≤ (predictRecord classify text).confidence :=
  predict_override classify text h

/-- Witness for C1 at the concrete text "Service is DOWN" and the empty
classifier ranking. -/
theorem claim_C1_witness :
    matchesEmergency (lowerL (str "Service is DOWN")) = true ∧
      (predictRecord (fun _ => []) (str "Service is DOWN")).priority =
        str "Critical" ∧
      (85/100 : ℚ) ≤
        (predictRecord (fun _ => []) (str "Service is DOWN")).confidence :=
  ⟨by decide, claim_C1_emergency_override (fun _ => [])
    (str "Service is DOWN") (by decide)⟩

/-- C8: the override regex matches the bare substring "down" with no word
boundaries, so any text containing it (also inside words like "dropdown")
is forced to Critical with confidence at least 0.85. -/
theorem claim_C8_down_substring (classify : Chars → List Classification)
    (text : Chars) (h : (str "down") <:+: lowerL text) :
    (predictRecord classify text).priority = str "Critical" ∧
      (85/100 : ℚ) ≤ (predictRecord classify text).confidence := by
  have hem : matchesEmergency (lowerL text) = true := by
    simp only [matchesEmergency, hasAny, emergencyKw, List.any_eq_true]
    exact ⟨str "down", by decide, decide_eq_true h⟩
  exact predict_override classify text hem

/-- Witness for C8 at the concrete text "dropdown menu broken". -/
theorem claim_C8_witness :
    (str "down") <:+: lowerL (str "dropdown menu broken") ∧
      (predictRecord (fun _ => []) (str "dropdown menu broken")).priority =
        str "Critical" ∧
      (85/100 : ℚ) ≤
        (predictRecord (fun _ => []) (str "dropdown menu broken")).confidence :=
  ⟨by decide, claim_C8_down_substring (fun _ => [])
    (str "dropdown menu broken") (by decide)⟩

/-- C10: the complexity-score-to-story-points mapping is monotone. -/
theorem claim_C10_toFib_monotone (s t : ℚ) (h : s ≤ t) :
    toFib s ≤ toFib t := by
  unfold toFib
  split_ifs <;> first | omega | linarith

/-- Witness for C10 at scores 0.1 and 1. -/
theorem claim_C10_witness :
    ((1 : ℚ)/10 ≤ 1) ∧ toFib (1/10) ≤ toFib 1 :=
  ⟨by norm_num, claim_C10_toFib_monotone (1/10) 1 (by norm_num)⟩

lemma toFib_mem (s : ℚ) :
    toFib s = 1 ∨ toFib s = 2 ∨ toFib s = 3 ∨ toFib s = 5 ∨ toFib s = 8 ∨
      toFib s = 13 := by
  unfold toFib
  split_ifs <;> simp

lemma baseHours_ge (p : ℕ) : (4 : ℚ) ≤ baseHours p := by
  unfold baseHours
  split_ifs <;> norm_num

lemma one_le_jsRound {q : ℚ} (h : (1/2 : ℚ) ≤ q) : 1 ≤ jsRound q :=
  Int.le_floor.mpr (by push_cast; linarith)

lemma one_le_estimateHours (p : ℕ) (text : Chars) :
    1 ≤ estimateHoursFn p text := by
  have hb := baseHours_ge p
  simp only [estimateHoursFn]
  split_ifs <;> apply one_le_jsRound <;> nlinarith [hb]

/-- C2: for every input text and classifier ranking, the result satisfies
storyPoints ∈ {1,2,3,5,8,13}, estimateHours ≥ 1 and
confidence ∈ [0.4, 0.99]. -/
theorem claim_C2_invariants (classify : Chars → List Classification)
    (text : Chars) :
    ((predictRecord classify text).storyPoints = 1 ∨
      (predictRecord classify text).storyPoints = 2 ∨
      (predictRecord classify text).storyPoints = 3 ∨
      (predictRecord classify text).storyPoints = 5 ∨
      (predictRecord classify text).storyPoints = 8 ∨
      (predictRecord classify text).storyPoints = 13) ∧
    1 ≤ (predictRecord classify text).estimateHours ∧
    (4/10 : ℚ) ≤ (predictRecord classify text).confidence ∧
    (predictRecord classify text).confidence ≤ 99/100 := by
  by_cases hne : clean text = []
  · simp only [predictRecord, if_pos hne, lowDefault]
    norm_num
  · rw [predictRecord_main classify text hne]
    obtain ⟨hlo, hhi⟩ := confidence_pre_bounds
      (classify (clean text)) (matchesEmergency (lowerL text))
    refine ⟨toFib_mem _, one_le_estimateHours _ _, ?_, ?_⟩
    · exact le_trans (by norm_num)
        (toFixed2_lb 50 (by push_cast; linarith))
    · exact toFixed2_ub 99 (by push_cast; linarith)

/-! ### C4: complexity score -/

lemma addIf_eq (t : Chars) (list : List Chars) (w s : ℚ) :
    addIf t list w s = s + w * countMatches list t := by
  induction list generalizing s with
  | nil => simp [addIf, countMatches]
  | cons k ks ih =>
    cases hk : decide (k <:+: t) with
    | false =>
      simp only [addIf, List.foldl_cons, hk, countMatches, List.filter_cons]
      simp only [Bool.false_eq_true, if_false]
      exact ih s
    | true =>
      simp only [addIf, List.foldl_cons, hk, countMatches, List.filter_cons,
        if_true, List.length_cons]
      rw [show List.foldl
        (fun sc k => if decide (k <:+: t) = true then sc + w else sc)
        (s + w) ks = addIf t ks w (s + w) from rfl, ih (s + w)]
      rw [show countMatches ks t =
        (List.filter (fun k => decide (k <:+: t)) ks).length from rfl]
      push_cast
      ring

/-- The code's complexity score in closed form: one weight contribution per
matching keyword, then the clamp. -/
lemma scoreComplexity_eq_perKeyword (text : Chars) :
    scoreComplexity text = specScorePerKeyword text := by
  simp only [scoreComplexity, specScorePerKeyword, baseLenScore, addIf_eq]

lemma scoreComplexity_lb (text : Chars) : 0 ≤ scoreComplexity text := by
  simp only [scoreComplexity]
  exact le_max_left _ _

lemma scoreComplexity_ub (text : Chars) : scoreComplexity text ≤ 3/2 := by
  simp only [scoreComplexity]
  exact max_le (by norm_num) (min_le_left _ _)

/-- C4 counterexample: on "api cache" two medium keywords both match, and the
code adds the medium weight twice (score 19/60), not once (which would give
1/6): a set does not contribute at most once. -/
theorem claim_C4_cex :
    scoreComplexity (str "api cache") ≠ specScoreAtMostOnce (str "api cache") := by
  have hclean : clean (str "api cache") = str "api cache" := by decide
  have hA : scoreComplexity (str "api cache") = 19/60 := by
    rw [scoreComplexity_eq_perKeyword]
    simp only [specScorePerKeyword, baseLenScore, hclean,
      show countMatches tinyKw (str "api cache") = 0 from by decide,
      show countMatches smallKw (str "api cache") = 0 from by decide,
      show countMatches mediumKw (str "api cache") = 2 from by decide,
      show countMatches largeKw (str "api cache") = 0 from by decide,
      show ((str "api cache").splitOn ' ').length = 2 from by decide]
    norm_num [min_def, max_def]
  have hB : specScoreAtMostOnce (str "api cache") = 1/6 := by
    simp only [specScoreAtMostOnce, baseLenScore, hclean,
      show hasAny tinyKw (str "api cache") = false from by decide,
      show hasAny smallKw (str "api cache") = false from by decide,
      show hasAny mediumKw (str "api cache") = true from by decide,
      show hasAny largeKw (str "api cache") = false from by decide,
      show ((str "api cache").splitOn ' ').length = 2 from by decide]
    norm_num [min_def, max_def]
  rw [hA, hB]
  norm_num

/-- C4 amended: each keyword (not each set) contributes its set's additive
weight once per matching keyword, and the final score is clamped to
[0, 1.5]. -/
theorem claim_C4_amended (text : Chars) :
    scoreComplexity text = specScorePerKeyword text ∧
      0 ≤ scoreComplexity text ∧ scoreComplexity text ≤ 3/2 :=
  ⟨scoreComplexity_eq_perKeyword text, scoreComplexity_lb text,
    scoreComplexity_ub text⟩

/-! ### C5: hour estimation -/

/-- C5: estimateHours is the base-table value with the three conditional
multipliers composed and rounded; hyphenated keywords survive normalization
(the tokenizer keeps hyphens inside words), so "well-defined" triggers the
×0.80 multiplier and "cross-team" the ×1.25 multiplier. -/
theorem claim_C5_hours_formula (points : ℕ) (text : Chars) :
    estimateHoursFn points text =
      jsRound (baseHours points *
        (if hasAny uncertaintyKw (clean text) then 13/10 else 1) *
        (if hasAny simplicityKw (clean text) then 4/5 else 1) *
        (if hasAny coordinationKw (clean text) then 5/4 else 1)) ∧
    ((str "well-defined") <:+: lowerL text →
      hasAny simplicityKw (clean text) = true) ∧
    ((str "cross-team") <:+: lowerL text →
      hasAny coordinationKw (clean text) = true) := by
  refine ⟨?_, ?_, ?_⟩
  · simp only [estimateHoursFn]
    split_ifs <;> congr 1 <;> ring
  · intro h
    have hinf := infix_clean (str "well-defined") (by decide) (by decide)
      (by decide) (by decide) h
    simp only [hasAny]
    exact List.any_eq_true.mpr ⟨str "well-defined", by decide,
      decide_eq_true hinf⟩
  · intro h
    have hinf := infix_clean (str "cross-team") (by decide) (by decide)
      (by decide) (by decide) h
    simp only [hasAny]
    exact List.any_eq_true.mpr ⟨str "cross-team", by decide,
      decide_eq_true hinf⟩

/-- Witness for C5 on a text containing both hyphenated keywords. -/
theorem claim_C5_witness :
    ((str "well-defined") <:+: lowerL (str "a well-defined cross-team task")) ∧
      hasAny simplicityKw (clean (str "a well-defined cross-team task")) = true ∧
      ((str "cross-team") <:+: lowerL (str "a well-defined cross-team task")) ∧
      hasAny coordinationKw (clean (str "a well-defined cross-team task")) = true :=
  ⟨by decide,
    (claim_C5_hours_formula 1 (str "a well-defined cross-team task")).2.1
      (by decide),
    by decide,
    (claim_C5_hours_formula 1 (str "a well-defined cross-team task")).2.2
      (by decide)⟩

/-! ### C9: confidence rounding -/

/-- C9: the returned confidence always has at most two decimal places. -/
theorem claim_C9_confidence_rounded (classify : Chars → List Classification)
    (text : Chars) (_h : text ≠ []) :
    ((100 : ℚ) * (predictRecord classify text).confidence).den = 1 := by
  by_cases hne : clean text = []
  · simp only [predictRecord, if_pos hne, lowDefault]
    rw [show (100 : ℚ) * (4/10) = ((40 : ℤ) : ℚ) from by norm_num]
    exact Rat.den_intCast 40
  · rw [predictRecord_main classify text hne]
    simp only [toFixed2]
    rw [show (100 : ℚ) *
        ((jsRound ((if matchesEmergency (lowerL text) = true
          then max (classifierPC (classify (clean text))).2 (85/100)
          else (classifierPC (classify (clean text))).2) * 100) : ℚ) / 100) =
        ((jsRound ((if matchesEmergency (lowerL text) = true
          then max (classifierPC (classify (clean text))).2 (85/100)
          else (classifierPC (classify (clean text))).2) * 100) : ℤ) : ℚ)
      from by ring]
    exact Rat.den_intCast _

/-- Witness for C9 at the nonempty text "hi". -/
theorem claim_C9_witness :
    (str "hi" ≠ []) ∧
      ((100 : ℚ) * (predictRecord (fun _ => []) (str "hi")).confidence).den = 1 :=
  ⟨by decide, claim_C9_confidence_rounded (fun _ => []) (str "hi") (by decide)⟩

/-! ### C3: short-circuit condition -/

/-- C3 counterexample: for summary "the" and empty description, the trimmed
concatenation "the" is nonempty, yet `predictRecord` returns exactly the
fixed conservative default (the normalized text is empty, "the" being a
stop-word). -/
theorem claim_C3_cex :
    recordText (str "the") (str "") ≠ [] ∧
      predictRecord critClassifier (recordText (str "the") (str "")) =
        lowDefault :=
  ⟨by decide, rfl⟩

lemma confidence_ge_half (classify : Chars → List Classification)
    (text : Chars) (hne : clean text ≠ []) :
    (1/2 : ℚ) ≤ (predictRecord classify text).confidence := by
  rw [predictRecord_main classify text hne]
  obtain ⟨hlo, _⟩ := confidence_pre_bounds (classify (clean text))
    (matchesEmergency (lowerL text))
  exact le_trans (by norm_num) (toFixed2_lb 50 (by push_cast; linarith))

/-- C3 amended: the prediction short-circuits to the fixed default iff the
NORMALIZED concatenated text is empty; an empty trimmed concatenation is one
way (but not the only way) to make the normalized text empty. -/
theorem claim_C3_amended (classify : Chars → List Classification)
    (summary description : Chars) :
    (predictRecord classify (recordText summary description) = lowDefault ↔
      clean (recordText summary description) = []) ∧
    (jsTrim (summary ++ str "\n" ++ description) = [] →
      clean (recordText summary description) = []) := by
  constructor
  · constructor
    · intro heq
      by_contra hne
      have hc := confidence_ge_half classify _ hne
      rw [heq] at hc
      norm_num [lowDefault] at hc
    · intro hnil
      simp [predictRecord, hnil]
  · intro htrim
    simp only [recordText, htrim]
    rfl

/-- Witness for C3 amended, at the all-empty record. -/
theorem claim_C3_witness :
    jsTrim (str "" ++ str "\n" ++ str "") = [] ∧
      clean (recordText (str "") (str "")) = [] :=
  ⟨by decide,
    (claim_C3_amended critClassifier (str "") (str "")).2 (by decide)⟩

/-! ### C6: the payment-gateway scenario -/

/-- C6 counterexample: the emergency override does NOT fire on the scenario
text (the regex has "payment failed", not "payment", and no other
alternative occurs), so a classifier ranking Low first yields priority Low,
not Critical. -/
theorem claim_C6_cex :
    matchesEmergency (lowerL c6text) = false ∧
      (predictRecord lowClassifier c6text).priority ≠ str "Critical" := by
  refine ⟨by decide, ?_⟩
  intro h
  have hp : (predictRecord lowClassifier c6text).priority = str "Low" := rfl
  rw [hp] at h
  exact absurd h (by decide)

/-- C6 amended: on the scenario text the override does not fire; for every
classifier ranking the rationale contains "revenue impact" (the
payment/checkout cue), and the priority is simply the classifier's top
label (Critical only if the classifier ranks it first). -/
theorem claim_C6_amended (classify : Chars → List Classification) :
    matchesEmergency (lowerL c6text) = false ∧
      (str "revenue impact") <:+: (predictRecord classify c6text).rationale ∧
      (∀ c0 rest, classify (clean c6text) = c0 :: rest →
        (predictRecord classify c6text).priority = c0.label) := by
  have hne : clean c6text ≠ [] := by decide
  have hem : matchesEmergency (lowerL c6text) = false := by decide
  refine ⟨hem, ?_, ?_⟩
  · rw [predictRecord_main classify c6text hne]
    have hb : ∀ (P : Chars) (sp : ℕ) (hrs : ℤ),
        buildRationale P sp hrs (lowerL c6text) =
          (str "Priority " ++ P ++ str " based on cues: ") ++
            str "revenue impact" ++
            (str ". Story Points ~" ++ str (Nat.repr sp) ++ str ", Est ~" ++
              str (Int.repr hrs) ++ str "h.") := by
      intro P sp hrs
      simp only [buildRationale,
        show hasAny cueOutage (lowerL c6text) = false from by decide,
        show hasAny cueSecurity (lowerL c6text) = false from by decide,
        show hasAny cueRevenue (lowerL c6text) = true from by decide,
        show hasAny cueCosmetic (lowerL c6text) = false from by decide,
        show hasAny cueIntegration (lowerL c6text) = false from by decide,
        Bool.false_eq_true, if_false, if_true, List.nil_append,
        List.append_nil]
      rw [show List.intercalate (str ", ") [str "revenue impact"] =
        str "revenue impact" from by decide]
      rw [if_neg (by decide : ¬ (str "revenue impact" = []))]
      simp [List.append_assoc]
    rw [hb]
    exact ⟨str "Priority " ++
        (if matchesEmergency (lowerL c6text) then str "Critical"
          else (classifierPC (classify (clean c6text))).1) ++
        str " based on cues: ",
      str ". Story Points ~" ++
        str (Nat.repr (toFib (scoreComplexity c6text))) ++ str ", Est ~" ++
        str (Int.repr (estimateHoursFn (toFib (scoreComplexity c6text))
          c6text)) ++ str "h.", rfl⟩
  · intro c0 rest hcl
    rw [predictRecord_main classify c6text hne]
    simp only [hem, Bool.false_eq_true, if_false, hcl, classifierPC]

/-- Witness for C6 amended: with a classifier that does rank Critical first,
the priority is that top label. -/
theorem claim_C6_witness :
    critClassifier (clean c6text) =
        ⟨str "Critical", 3⟩ :: [⟨str "High", 1⟩] ∧
      (predictRecord critClassifier c6text).priority =
        Classification.label ⟨str "Critical", 3⟩ :=
  ⟨rfl, (claim_C6_amended critClassifier).2.2 _ _ rfl⟩

/-! ### C7: out-of-range explain-row queries -/

/-- C7: an out-of-range "why N" reference is not an error: the resolver
falls through to the subsequent intents, and when none of them matches the
message it ends at the fixed fallback reply. -/
theorem claim_C7_out_of_range (message : Chars) (ds : List ChatRow) (n : ℕ)
    (hds : ds ≠ []) (hval : ¬ (jsTrim message).length < 2)
    (hwhy : whyMatch (lowerL message) = some n)
    (hrange : n < 1 ∨ ds.length < n) :
    resolveChat message ds = afterWhy (lowerL message) ds ∧
      (∀ m, resolveChat message ds ≠ ChatResult.error m) ∧
      (noOtherIntent (lowerL message) = true →
        resolveChat message ds = ChatResult.reply fallbackReply) := by
  have hlen : ¬ ds.length = 0 := by
    intro h0
    exact hds (List.eq_nil_of_length_eq_zero h0)
  have hres : resolveChat message ds = afterWhy (lowerL message) ds := by
    simp only [resolveChat, if_neg hval, if_neg hlen, hwhy]
    rw [dif_neg (by omega)]
  have hreply : ∃ m, afterWhy (lowerL message) ds = ChatResult.reply m := by
    simp only [afterWhy]
    split_ifs <;> exact ⟨_, rfl⟩
  refine ⟨hres, ?_, ?_⟩
  · intro m hcontra
    obtain ⟨m', hm'⟩ := hreply
    rw [hres, hm'] at hcontra
    exact ChatResult.noConfusion hcontra
  · intro hno
    rw [hres]
    simp only [noOtherIntent, Bool.and_eq_true, Bool.not_eq_true'] at hno
    obtain ⟨⟨⟨h1, h2⟩, h3⟩, h4⟩ := hno
    simp only [afterWhy, h1, h2, h3, h4, Bool.false_eq_true, if_false]

/-- Witness for C7: three rows, message "why 10" — fallback reply. -/
theorem claim_C7_witness :
    ([chatRowA, chatRowB, chatRowC] ≠ ([] : List ChatRow)) ∧
      ¬ (jsTrim (str "why 10")).length < 2 ∧
      whyMatch (lowerL (str "why 10")) = some 10 ∧
      ((10 : ℕ) < 1 ∨ [chatRowA, chatRowB, chatRowC].length < 10) ∧
      resolveChat (str "why 10") [chatRowA, chatRowB, chatRowC] =
        ChatResult.reply fallbackReply := by
  refine ⟨?_, by decide, by decide, ?_, ?_⟩
  · intro hcontra
    exact List.cons_ne_nil _ _ hcontra
  · right
    decide
  · exact (claim_C7_out_of_range (str "why 10") [chatRowA, chatRowB, chatRowC]
      10 (List.cons_ne_nil _ _) (by decide) (by decide)
      (Or.inr (by decide))).2.2 (by decide)

end SP
